import Mathlib

set_option linter.unusedVariables false
set_option maxRecDepth 8192

/-!
Verification of the prompt-contract and response-validation layer of the
ExamPapers application (`src/Home.py`).

Text is modelled as `List Char`.  The response interpreter of the source is
embedded directly:

* the `StructuredJSON` path is `json.loads` wrapped in a `try/except` that
  re-raises as `ValueError ("Invalid JSON returned:\n" + raw)`
  (`generate_exam_question`, lines 107-112);
* the `LineList` path is the comprehension
  `[q.strip() for q in text.split("\n") if q.strip()]`
  (`generate_worksheet` line 273 and friends);
* the `FreeText` path returns the completion content unchanged
  (`generate_answer` / `generate_similar_question`).

`json.loads` is embedded as a fuelled recursive-descent parser over
`List Char` producing the mutually inductive `Json` type below, with Python
`dict` semantics for duplicate object keys (the later value wins, the first
position is kept).  Deliberate, documented restrictions of the embedding:
JSON numbers are modelled as arbitrary-precision integers (the wire schema of
the spec only uses ints; floating-point texts are outside the model), and
`\uXXXX` escapes denoting UTF-16 surrogates are rejected rather than paired.

The external completion service is an explicit oracle argument
`complete : String → String → String`; the generator functions of the source
are embedded as pure functions of that oracle.
-/

namespace ExamPapers

/-! ### Python string primitives -/

/-- The characters Python's `str.strip()` removes: the Unicode whitespace
set used by `str.isspace` (ASCII whitespace, the C0 separators, and the
Unicode space characters). -/
def pySpace (c : Char) : Bool :=
  c = ' ' || c = '\t' || c = '\n' || c = '\r' || c = '\x0b' || c = '\x0c' ||
  c = '\x1c' || c = '\x1d' || c = '\x1e' || c = '\x1f' ||
  c = '\x85' || c = '\xa0' || c = '\u1680' ||
  ('\u2000' ≤ c && c ≤ '\u200a') ||
  c = '\u2028' || c = '\u2029' || c = '\u202f' || c = '\u205f' || c = '\u3000'

/-- Python `str.strip()`: drop leading and trailing whitespace. -/
def strip (s : List Char) : List Char :=
  ((s.dropWhile pySpace).reverse.dropWhile pySpace).reverse

/-- Python `str.split("\n")`: cut at every newline, keeping empty pieces, so
the empty string yields one empty piece. -/
def splitNl : List Char → List (List Char)
  | [] => [[]]
  | c :: cs =>
    if c = '\n' then [] :: splitNl cs
    else
      match splitNl cs with
      | [] => [[c]]
      | line :: more => (c :: line) :: more

/-- The `LineList` interpretation of the source,
`[q.strip() for q in text.split("\n") if q.strip()]`
(`generate_worksheet`, `generate_balanced_worksheet`,
`generate_exam_style_worksheet`). -/
def lineList (text : List Char) : List (List Char) :=
  ((splitNl text).filter (fun q => !(strip q).isEmpty)).map strip

/-! ### Markup normalization (spec §4.3) -/

/-- Replace every (left-to-right, non-overlapping) occurrence of the adjacent
pair `a, b` by `rep`. -/
def swapPair (a b : Char) (rep : List Char) : List Char → List Char
  | [] => []
  | [c] => [c]
  | c1 :: c2 :: cs =>
    if c1 = a ∧ c2 = b then rep ++ swapPair a b rep cs
    else c1 :: swapPair a b rep (c2 :: cs)

/-- Modelled from the spec: §4.3 describes an optional markup-normalization
step, absent from `src/Home.py`, that "converts one inline-math delimiter
convention into another (e.g., a parenthesis-delimited math span into a
dollar-delimited one) via pattern substitution".  Each delimiter of a
parenthesis-delimited span (the opener and the closer) is substituted
by the dollar delimiter. -/
def normalize (t : List Char) : List Char :=
  swapPair '\\' ')' ['$'] (swapPair '\\' '(' ['$'] t)

/-- Whether the list contains the adjacent pair `a, b`. -/
def hasAdj (a b : Char) : List Char → Bool
  | c1 :: c2 :: cs => (c1 = a && c2 = b) || hasAdj a b (c2 :: cs)
  | _ => false

/-! ### Substring search (for reasoning about instruction text) -/

/-- `leadsWith pat s`: `pat` is an initial segment of `s`. -/
def leadsWith : List Char → List Char → Bool
  | [], _ => true
  | _ :: _, [] => false
  | p :: ps, c :: cs => p = c && leadsWith ps cs

/-- `occurs pat s`: `pat` appears as a contiguous run inside `s`. -/
def occurs (pat : List Char) : List Char → Bool
  | [] => leadsWith pat []
  | c :: cs => leadsWith pat (c :: cs) || occurs pat cs

/-! ### Python `", ".join` -/

/-- Python `", ".join(subtopics)` (used to form `chosen` in every worksheet
generator). -/
def joinComma : List String → String
  | [] => ""
  | [s] => s
  | s :: more => s ++ ", " ++ joinComma more

/-- The `system_prompt` of `generate_exam_question` in `src/Home.py`. -/
def examSystemPrompt : String :=
  "You are a Leaving Cert Higher Level Maths examiner.Generate questions that follow the style, structure, tone, and difficulty of real LC Higher Level exam papers.Requirements:- Create NEW, original questions. Never quote or reproduce past papers.- Use multi-part structure (a), (b), (c) where appropriate.- Use clear mathematical reasoning and LC-style progression.- ALL mathematical expressions must be valid LaTeX.- Do NOT use $...$ or $$...$$.- Output RAW LaTeX only, suitable for st.latex().- Never output plain text maths like x^2 or 1/6.- Every mathematical expression must be written in pure LaTeX, e.g.: 2x^2 - 4x - 6 = 0  \x0crac\x7b1\x7d\x7b6\x7d  \\sqrt\x7bx\x7d- Return exactly 3 exam-style questions, each possibly multi-part.- Do NOT include solutions."

/-- The `user_prompt` of `generate_exam_question` in `src/Home.py`. -/
def examUserPrompt (topic : String) (marks : Int) : String :=
  "\n        Generate ONE exam-style question for Leaving Cert Higher Level Maths.\n\n        Requirements:\n        - Topic: " ++
    topic ++
    "\n        - Total marks: " ++
    toString marks ++
    "\n        - Structure: multi-part (a), (b), (c)\n        - Difficulty: Higher Level\n        - Style: similar to real LC HL exam questions but not copied\n        - All maths must be valid LaTeX (no $$ or \n\\[ \\]\n\n, just the LaTeX)\n        - Provide full worked solutions for each part\n        - Distribute marks sensibly across parts\n\n        Return ONLY valid JSON in this structure:\n\n        \x7b\n          \"total_marks\": <int>,\n          \"topic\": \"" ++
    topic ++
    "\",\n          \"difficulty\": \"Higher Level\",\n          \"parts\": [\n            \x7b\n              \"label\": \"a\",\n              \"marks\": <int>,\n              \"question\": \"<LaTeX>\",\n              \"solution\": \"<LaTeX>\"\n            \x7d,\n            \x7b\n              \"label\": \"b\",\n              \"marks\": <int>,\n              \"question\": \"<LaTeX>\",\n              \"solution\": \"<LaTeX>\"\n            \x7d,\n            \x7b\n              \"label\": \"c\",\n              \"marks\": <int>,\n              \"question\": \"<LaTeX>\",\n              \"solution\": \"<LaTeX>\"\n            \x7d\n          ]\n        \x7d\n\n        JSON only. No backticks.\n"

/-- The `system_prompt` of `generate_worksheet` in `src/Home.py`. -/
def worksheetSystemPrompt (difficulty : String) (chosen : String) : String :=
  "You are a Leaving Cert Higher Level Maths tutor. Generate exactly 10 unique exam‑style questions. Difficulty level: " ++
    difficulty ++
    ". Focus ONLY on these subtopics: " ++
    chosen ++
    ". Use LaTeX formatting for ALL mathematical expressions. Use ONLY inline LaTeX with single dollar signs: $ ... $.Wrap EVERY LaTeX expression in $$ ... $$. Never use $$ ... $$ under any circumstances.Never output plain text maths such as x^2, 1/6, sqrt(x), etc.Every mathematical expression must be inside $ ... $.Do NOT output plain text maths like x^2 or 1/6. Return the questions as a numbered list, one per line, no solutions."

/-- The `user_prompt` of `generate_worksheet` in `src/Home.py`. -/
def worksheetUserPrompt (difficulty : String) (topic : String) (chosen : String) : String :=
  "Create a " ++
    difficulty ++
    " worksheet on " ++
    topic ++
    ". Subtopics: " ++
    chosen ++
    ". Ensure ALL maths is in LaTeX wrapped in $$ ... $$."

/-- The `system_prompt` of `generate_balanced_worksheet` in `src/Home.py`. -/
def balancedSystemPrompt : String :=
  "You are a Leaving Cert Higher Level Maths tutor. Generate ONE exam‑style question for EACH selected subtopic. Use LaTeX formatting wrapped in $$ ... $$. Use ONLY inline LaTeX with single dollar signs: $ ... $.Wrap EVERY LaTeX expression in $$ ... $$. Never use $$ ... $$ under any circumstances.Never output plain text maths such as x^2, 1/6, sqrt(x), etc.Every mathematical expression must be inside $ ... $.Do NOT output plain text maths like x^2 or 1/6. Return a numbered list, no solutions."

/-- The `user_prompt` of `generate_balanced_worksheet` in `src/Home.py`. -/
def balancedUserPrompt (topic : String) (chosen : String) : String :=
  "Topic: " ++
    topic ++
    "\nSubtopics: " ++
    chosen

/-- The `system_prompt` of `generate_answer` in `src/Home.py`. -/
def answerSystemPrompt (difficulty : String) : String :=
  "You are a Leaving Cert Higher Level Maths tutor. Provide a full step‑by‑step worked solution. Use LaTeX formatting wrapped in $$ ... $$. Use ONLY inline LaTeX with single dollar signs: $ ... $.Wrap EVERY LaTeX expression in $$ ... $$. Never use $$ ... $$ under any circumstances.Never output plain text maths such as x^2, 1/6, sqrt(x), etc.Every mathematical expression must be inside $ ... $.Do NOT output plain text maths like x^2 or 1/6. Match the difficulty: " ++
    difficulty ++
    "."

/-- The `user_prompt` of `generate_answer` in `src/Home.py`. -/
def answerUserPrompt (topic : String) (question : String) : String :=
  "Topic: " ++
    topic ++
    "\nQuestion: " ++
    question

/-- The `system_prompt` of `generate_similar_question` in `src/Home.py`. -/
def similarSystemPrompt : String :=
  "You are a Leaving Cert Higher Level Maths tutor. Generate ONE new question similar in style and difficulty but not identical. Use LaTeX formatting wrapped in $$ ... $$. Use ONLY inline LaTeX with single dollar signs: $ ... $.Wrap EVERY LaTeX expression in $$ ... $$. Never use $$ ... $$ under any circumstances.Never output plain text maths such as x^2, 1/6, sqrt(x), etc.Every mathematical expression must be inside $ ... $.Do NOT output plain text maths like x^2 or 1/6. No solution."

/-- The `user_prompt` of `generate_similar_question` in `src/Home.py`. -/
def similarUserPrompt (topic : String) (question : String) : String :=
  "Topic: " ++
    topic ++
    "\nOriginal question: " ++
    question

/-- The `system_prompt` of `generate_exam_style_worksheet` in `src/Home.py`. -/
def examStyleSystemPrompt : String :=
  "You are a Leaving Cert Higher Level Maths examiner. Generate questions that follow the style, structure, tone, and difficulty of real LC Higher Level exam papers. Base your style on typical LC question formats, multi‑part structure, mark‑style progression, and the level of mathematical rigor expected. You may include multi‑part questions (a), (b), (c). You may include diagrams described in words. Do NOT quote or reproduce any past exam paper. Only create new, original questions inspired by the general LC style. Use LaTeX formatting for ALL mathematical expressions, wrapped in $$ ... $$. Use ONLY inline LaTeX with single dollar signs: $ ... $.Wrap EVERY LaTeX expression in $$ ... $$. Never use $$ ... $$ under any circumstances.Never output plain text maths such as x^2, 1/6, sqrt(x), etc.Every mathematical expression must be inside $ ... $.Do NOT output plain text maths like x^2 or 1/6. Return exactly 3 exam‑style questions, each possibly multi‑part, no solutions."

/-- The `user_prompt` of `generate_exam_style_worksheet` in `src/Home.py`. -/
def examStyleUserPrompt (topic : String) (chosen : String) : String :=
  "Topic: " ++
    topic ++
    "\nSubtopics: " ++
    chosen ++
    "\nGenerate 3 exam‑style questions."


/-! ### The Prompt Builder (spec §4.1): pure instruction-pair construction -/

/-- The options offered by the marks selectbox,
`st.selectbox("Total marks:", [25, 50, 75])` (line 140). -/
def marksOptions : List Int := [25, 50, 75]

/-- Instruction pair for `SingleExamQuestion` mode. -/
def buildExamPrompts (topic : String) (marks : Int) : String × String :=
  (examSystemPrompt, examUserPrompt topic marks)

/-- Instruction pair for `Worksheet` mode. -/
def buildWorksheetPrompts (topic : String) (subtopics : List String)
    (difficulty : String) : String × String :=
  let chosen := joinComma subtopics
  (worksheetSystemPrompt difficulty chosen, worksheetUserPrompt difficulty topic chosen)

/-- Instruction pair for `BalancedWorksheet` mode. -/
def buildBalancedPrompts (topic : String) (subtopics : List String) : String × String :=
  let chosen := joinComma subtopics
  (balancedSystemPrompt, balancedUserPrompt topic chosen)

/-- Instruction pair for `ExamStyleWorksheet` mode. -/
def buildExamStylePrompts (topic : String) (subtopics : List String) : String × String :=
  let chosen := joinComma subtopics
  (examStyleSystemPrompt, examStyleUserPrompt topic chosen)

/-- Instruction pair for `Answer` mode. -/
def buildAnswerPrompts (question topic difficulty : String) : String × String :=
  (answerSystemPrompt difficulty, answerUserPrompt topic question)

/-- Instruction pair for `SimilarQuestion` mode. -/
def buildSimilarPrompts (question topic difficulty : String) : String × String :=
  (similarSystemPrompt, similarUserPrompt topic question)

/-! ### The worksheet and free-text generators

The completion service is the explicit oracle `complete`; `call_openai`
returns `response.choices[0].message.content`, i.e. the oracle output
unchanged. -/

/-- `generate_worksheet` (lines 247-273): build the prompts, call the
service, split the reply into trimmed non-empty lines. -/
def generate_worksheet (complete : String → String → String) (topic : String)
    (subtopics : List String) (difficulty : String) : List (List Char) :=
  let chosen := joinComma subtopics
  lineList ((complete (worksheetSystemPrompt difficulty chosen)
    (worksheetUserPrompt difficulty topic chosen)).data)

/-- `generate_balanced_worksheet` (lines 276-295). -/
def generate_balanced_worksheet (complete : String → String → String)
    (topic : String) (subtopics : List String) : List (List Char) :=
  let chosen := joinComma subtopics
  lineList ((complete balancedSystemPrompt (balancedUserPrompt topic chosen)).data)

/-- `generate_exam_style_worksheet` (lines 337-367). -/
def generate_exam_style_worksheet (complete : String → String → String)
    (topic : String) (subtopics : List String) : List (List Char) :=
  let chosen := joinComma subtopics
  lineList ((complete examStyleSystemPrompt (examStyleUserPrompt topic chosen)).data)

/-- `generate_answer` (lines 298-314): returns `call_openai(...)` directly,
i.e. the completion content itself. -/
def generate_answer (complete : String → String → String)
    (question topic difficulty : String) : String :=
  complete (answerSystemPrompt difficulty) (answerUserPrompt topic question)

/-- `generate_similar_question` (lines 317-334). -/
def generate_similar_question (complete : String → String → String)
    (question topic difficulty : String) : String :=
  complete similarSystemPrompt (similarUserPrompt topic question)


/-! ### JSON values

Mutually inductive so that recursion and induction over nesting are
structural.  Strings are `List Char`, numbers are integers (see the header
note on the embedding's numeric restriction). -/

mutual

inductive Json where
| null : Json
| bool (b : Bool) : Json
| num (n : Int) : Json
| str (s : List Char) : Json
| arr (elems : JList) : Json
| obj (members : JMembers) : Json

inductive JList where
| nil : JList
| cons (v : Json) (tail : JList) : JList

inductive JMembers where
| nil : JMembers
| cons (key : List Char) (v : Json) (tail : JMembers) : JMembers

end

/-- Key membership in a member list. -/
def hasKey (k : List Char) : JMembers → Bool
  | .nil => false
  | .cons k2 _ ms => k2 = k || hasKey k ms

/-- Key lookup in a member list (first occurrence). -/
def findKey (k : List Char) : JMembers → Option Json
  | .nil => none
  | .cons k2 v ms => if k2 = k then some v else findKey k ms

/-- Python `dict` insertion: an existing key keeps its position and takes
the new value; a fresh key is appended at the end. -/
def putKey (k : List Char) (v : Json) : JMembers → JMembers
  | .nil => .cons k v .nil
  | .cons k2 v2 ms => if k2 = k then .cons k2 v ms else .cons k2 v2 (putKey k v ms)

/-- Insert a raw member sequence into the accumulator dict, left to right. -/
def dedupFrom (acc : JMembers) : JMembers → JMembers
  | .nil => acc
  | .cons k v ms => dedupFrom (putKey k v acc) ms

/-- Collapse duplicate keys the way building a Python `dict` member by
member does: the later value wins, the first position is kept. -/
def dedupMembers (ms : JMembers) : JMembers := dedupFrom .nil ms

/-- Concatenation of member sequences. -/
def mcat : JMembers → JMembers → JMembers
  | .nil, ns => ns
  | .cons k v ms, ns => .cons k v (mcat ms ns)

/-! ### The `json.loads` embedding -/

/-- The whitespace `json.loads` skips between tokens. -/
def jsonWs (c : Char) : Bool := c = ' ' || c = '\t' || c = '\n' || c = '\r'

/-- Drop inter-token whitespace. -/
def chewWs (s : List Char) : List Char := s.dropWhile jsonWs

/-- Match a literal tail (`ull`, `rue`, `alse`) and return what follows. -/
def afterLit : List Char → List Char → Option (List Char)
  | [], s => some s
  | _ :: _, [] => none
  | l :: ls, c :: cs => if c = l then afterLit ls cs else none

/-- Decimal digit character. -/
def isDig (c : Char) : Bool := '0' ≤ c && c ≤ '9'

/-- Longest digit run at the front, and the remainder. -/
def grabDigits : List Char → List Char × List Char
  | [] => ([], [])
  | c :: cs =>
    if isDig c then
      let (ds, r) := grabDigits cs
      (c :: ds, r)
    else ([], c :: cs)

/-- Numeric value of a digit run. -/
def digitsNat (ds : List Char) : Nat :=
  ds.foldl (fun a c => a * 10 + (c.toNat - 48)) 0

/-- Unsigned integer token: a single `0`, or a run led by a nonzero digit
(the JSON grammar; `json.loads` rejects `01`). -/
def parseIntBody (s : List Char) : Option (Nat × List Char) :=
  match s with
  | [] => none
  | c :: r =>
    if c = '0' then some (0, r)
    else if isDig c then
      let (ds, rr) := grabDigits (c :: r)
      some (digitsNat ds, rr)
    else none

/-- Signed integer token. -/
def parseIntTok (s : List Char) : Option (Int × List Char) :=
  match s with
  | [] => none
  | c :: r =>
    if c = '-' then (parseIntBody r).map (fun p => (-(p.1 : Int), p.2))
    else (parseIntBody (c :: r)).map (fun p => ((p.1 : Int), p.2))

/-- Value of a hexadecimal digit character. -/
def hexDigVal (c : Char) : Option Nat :=
  if '0' ≤ c && c ≤ '9' then some (c.toNat - 48)
  else if 'a' ≤ c && c ≤ 'f' then some (c.toNat - 87)
  else if 'A' ≤ c && c ≤ 'F' then some (c.toNat - 55)
  else none

/-- The two-character escapes of the JSON string grammar. -/
def shortEsc (c : Char) : Option Char :=
  match c with
  | '"' => some '"'
  | '\\' => some '\\'
  | '/' => some '/'
  | 'b' => some '\x08'
  | 'f' => some '\x0c'
  | 'n' => some '\n'
  | 'r' => some '\r'
  | 't' => some '\t'
  | _ => none

/-- String body after the opening quote, strict mode: unescaped control
characters are rejected, exactly as `json.loads` does; a `\uXXXX` escape is
taken as a scalar value, with surrogate values rejected (see the header
note). -/
def parseStrBody : List Char → Option (List Char × List Char)
  | [] => none
  | c :: r =>
    if c = '"' then some ([], r)
    else if c = '\\' then
      match r with
      | [] => none
      | e :: r2 =>
        if e = 'u' then
          match r2 with
          | a :: b :: c2 :: d :: r3 =>
            (match hexDigVal a, hexDigVal b, hexDigVal c2, hexDigVal d with
             | some va, some vb, some vc, some vd =>
               let n := ((va * 16 + vb) * 16 + vc) * 16 + vd
               if 0xd800 ≤ n && n < 0xe000 then none
               else (parseStrBody r3).map (fun p => (Char.ofNat n :: p.1, p.2))
             | _, _, _, _ => none)
          | _ => none
        else
          match shortEsc e with
          | some ch => (parseStrBody r2).map (fun p => (ch :: p.1, p.2))
          | none => none
    else if c.toNat < 32 then none
    else (parseStrBody r).map (fun p => (c :: p.1, p.2))

mutual

/-- One JSON value, fuel-bounded recursive descent (leading whitespace
allowed). -/
def parseVal : Nat → List Char → Option (Json × List Char)
  | 0, _ => none
  | fuel + 1, s =>
    match chewWs s with
    | [] => none
    | c :: r =>
      if c = 'n' then (afterLit ['u', 'l', 'l'] r).map (fun t => (Json.null, t))
      else if c = 't' then (afterLit ['r', 'u', 'e'] r).map (fun t => (Json.bool true, t))
      else if c = 'f' then (afterLit ['a', 'l', 's', 'e'] r).map (fun t => (Json.bool false, t))
      else if c = '"' then (parseStrBody r).map (fun p => (Json.str p.1, p.2))
      else if c = '[' then
        match chewWs r with
        | [] => none
        | c2 :: r2 =>
          if c2 = ']' then some (Json.arr .nil, r2)
          else
            match parseVal fuel (c2 :: r2) with
            | none => none
            | some (v, r3) =>
              match parseArrTail fuel r3 with
              | none => none
              | some (vs, r4) => some (Json.arr (.cons v vs), r4)
      else if c = '\x7b' then
        match chewWs r with
        | [] => none
        | c2 :: r2 =>
          if c2 = '\x7d' then some (Json.obj .nil, r2)
          else
            match parseMemsFrom fuel (c2 :: r2) with
            | none => none
            | some (ms, r3) => some (Json.obj (dedupMembers ms), r3)
      else if c = '-' || isDig c then
        (parseIntTok (c :: r)).map (fun p => (Json.num p.1, p.2))
      else none

/-- After one array element: a comma and a further element, or the closing
bracket. -/
def parseArrTail : Nat → List Char → Option (JList × List Char)
  | 0, _ => none
  | fuel + 1, s =>
    match chewWs s with
    | ']' :: t => some (.nil, t)
    | ',' :: t =>
      (match parseVal fuel t with
       | none => none
       | some (v, r1) =>
         match parseArrTail fuel r1 with
         | none => none
         | some (vs, r2) => some (.cons v vs, r2))
    | _ => none

/-- One or more `"key": value` members then the closing brace, as the raw
member sequence in source order (duplicates included; the caller folds them
into a dict). -/
def parseMemsFrom : Nat → List Char → Option (JMembers × List Char)
  | 0, _ => none
  | fuel + 1, s =>
    match s with
    | '"' :: r =>
      (match parseStrBody r with
       | none => none
       | some (k, r1) =>
         match chewWs r1 with
         | ':' :: r2 =>
           (match parseVal fuel r2 with
            | none => none
            | some (v, r3) =>
              match chewWs r3 with
              | '\x7d' :: t => some (.cons k v .nil, t)
              | ',' :: t =>
                (match parseMemsFrom fuel (chewWs t) with
                 | none => none
                 | some (ms, r4) => some (.cons k v ms, r4))
              | _ => none)
         | _ => none)
    | _ => none

end

/-- `json.loads`: one document, surrounding whitespace allowed, trailing
content rejected.  The fuel `2 * length + 2` exceeds what the parser can
consume on any accepted input (at least one character is consumed for every
two fuel steps), so the bound is never the reason a parse fails. -/
def loads (s : List Char) : Option Json :=
  match parseVal (2 * s.length + 2) s with
  | none => none
  | some (v, r) => if (chewWs r).isEmpty then some v else none

/-! ### The `StructuredJSON` interpretation and its caller -/

/-- The message of the `ValueError` raised at line 112:
`f"Invalid JSON returned:\n{raw}"`. -/
def invalidJsonMsg (raw : List Char) : List Char :=
  "Invalid JSON returned:\n".data ++ raw

/-- The `try/except` around `json.loads(raw)` (lines 109-112): a parse
failure is re-raised as a `ValueError` carrying the raw text; a parsed
value is returned as-is — no schema validation happens here. -/
def interpretStructured (raw : List Char) : Except (List Char) Json :=
  match loads raw with
  | some v => Except.ok v
  | none => Except.error (invalidJsonMsg raw)

/-- `generate_exam_question` (lines 32-112): build the two prompts, call
the service, strip the reply, `json.loads` it under `try/except`. -/
def generate_exam_question (complete : String → String → String)
    (topic : String) (marks : Int) : Except (List Char) Json :=
  let raw := strip ((complete examSystemPrompt (examUserPrompt topic marks)).data)
  interpretStructured raw

/-- The `Generate Question` click handler (lines 163-165):
`st.session_state.exam_question = generate_exam_question(topic, marks)`.
Under Python exception semantics the assignment happens only when the call
returns normally; a raised `ValueError` propagates and leaves the
session-state slot untouched. -/
def onGenerateClick (complete : String → String → String)
    (prev : Option Json) (topic : String) (marks : Int) : Option Json :=
  match generate_exam_question complete topic marks with
  | Except.ok q => some q
  | Except.error _ => prev

/-! ### Field access (as `render_question` / `render_solution` use it) -/

/-- `data[k]` on a parsed object, `None`-valued elsewhere. -/
def getField (v : Json) (k : String) : Option Json :=
  match v with
  | Json.obj ms => findKey k.data ms
  | _ => none

/-- The top-level keys the application reads
(`total_marks`, `topic`, `difficulty`, `parts`). -/
def recognizedKeys : List String :=
  ["total_marks", "topic", "difficulty", "parts"]

/-! ### A re-serializer, for the round-trip property -/

/-- Hexadecimal digit character, lowercase. -/
def hexDigChar (n : Nat) : Char :=
  if n < 10 then Char.ofNat (48 + n) else Char.ofNat (87 + n)

/-- Modelled from the spec: §8's round-trip property re-serializes the
parsed value, but `src/Home.py` never serializes, so the serializer is the
canonical JSON printer for the §6 wire format: short escapes for quote and
backslash, `\u00XX` for control characters, everything else literal. -/
def escChar (c : Char) : List Char :=
  if c = '"' then ['\\', '"']
  else if c = '\\' then ['\\', '\\']
  else if c.toNat < 32 then
    ['\\', 'u', '0', '0', hexDigChar (c.toNat / 16), hexDigChar (c.toNat % 16)]
  else [c]

/-- A serialized string: quote, escaped body, quote. -/
def dumpStr (s : List Char) : List Char := '"' :: (s.flatMap escChar ++ ['"'])

/-- Decimal digit characters of a natural, most significant first. -/
def natChars (n : Nat) : List Char :=
  if n < 10 then [Char.ofNat (48 + n)]
  else natChars (n / 10) ++ [Char.ofNat (48 + n % 10)]
decreasing_by exact Nat.div_lt_self (by omega) (by omega)

/-- Decimal characters of an integer. -/
def intChars (i : Int) : List Char :=
  if i < 0 then '-' :: natChars i.natAbs else natChars i.natAbs

mutual

/-- Serialize a value (`json.dumps` default separators: `", "` and `": "`). -/
def dumps : Json → List Char
  | .null => "null".data
  | .bool true => "true".data
  | .bool false => "false".data
  | .num n => intChars n
  | .str s => dumpStr s
  | .arr .nil => ['[', ']']
  | .arr (.cons v vs) => '[' :: (dumps v ++ dumpArrTail vs)
  | .obj ms => '\x7b' :: dumpMems ms

/-- The serialized tail of an array: `, v , v ... ]`. -/
def dumpArrTail : JList → List Char
  | .nil => [']']
  | .cons v vs => ',' :: ' ' :: (dumps v ++ dumpArrTail vs)

/-- The serialized members of an object, closing brace included. -/
def dumpMems : JMembers → List Char
  | .nil => ['\x7d']
  | .cons k v ms => dumpStr k ++ ':' :: ' ' :: (dumps v ++ dumpObjTail ms)

/-- The serialized tail of an object: `, "k": v ... \x7d`. -/
def dumpObjTail : JMembers → List Char
  | .nil => ['\x7d']
  | .cons k v ms => ',' :: ' ' :: (dumpStr k ++ ':' :: ' ' :: (dumps v ++ dumpObjTail ms))

end

/-! ### Well-formedness, size and schema predicates -/

/-- No key occurs twice. -/
def uniqKeys : JMembers → Bool
  | .nil => true
  | .cons k _ ms => !(hasKey k ms) && uniqKeys ms

mutual

/-- Well-formed: every object in the value has pairwise distinct keys
(true of everything `loads` produces, since it builds dicts). -/
def wfJ : Json → Bool
  | .null => true
  | .bool _ => true
  | .num _ => true
  | .str _ => true
  | .arr vs => wfL vs
  | .obj ms => uniqKeys ms && wfM ms

/-- All elements well-formed. -/
def wfL : JList → Bool
  | .nil => true
  | .cons v vs => wfJ v && wfL vs

/-- All member values well-formed. -/
def wfM : JMembers → Bool
  | .nil => true
  | .cons _ v ms => wfJ v && wfM ms

end

mutual

/-- Fuel adequate for parsing this value back from its serialization. -/
def jsize : Json → Nat
  | .null => 1
  | .bool _ => 1
  | .num _ => 1
  | .str _ => 1
  | .arr vs => 2 + lsize vs
  | .obj ms => 2 + msize ms

/-- Fuel adequate for an array tail. -/
def lsize : JList → Nat
  | .nil => 0
  | .cons v vs => jsize v + 1 + lsize vs

/-- Fuel adequate for a member run. -/
def msize : JMembers → Nat
  | .nil => 0
  | .cons _ v ms => jsize v + 1 + msize ms

end

/-- A remainder that cannot extend a serialized integer: empty, or headed
by a non-digit. -/
def noDigHead : List Char → Bool
  | [] => true
  | c :: _ => !(isDig c)

/-- Whether a part object has the §6 shape:
`label`/`question`/`solution` strings and an integer `marks`. -/
def partOk (p : Json) : Bool :=
  match p with
  | Json.obj ms =>
    (match findKey "label".data ms with | some (Json.str _) => true | _ => false) &&
    (match findKey "marks".data ms with | some (Json.num _) => true | _ => false) &&
    (match findKey "question".data ms with | some (Json.str _) => true | _ => false) &&
    (match findKey "solution".data ms with | some (Json.str _) => true | _ => false)
  | _ => false

/-- Every element is a well-shaped part. -/
def partsOk : JList → Bool
  | .nil => true
  | .cons p ps => partOk p && partsOk ps

/-- Modelled from the spec: the StructuredQuestion wire schema of §6 —
an object with integer `total_marks`, string `topic` and `difficulty`, and
a `parts` array of part objects.  `src/Home.py` never validates this shape;
the predicate only delimits the inputs the round-trip property speaks
about. -/
def isStructuredQuestion (v : Json) : Bool :=
  match v with
  | Json.obj ms =>
    (match findKey "total_marks".data ms with | some (Json.num _) => true | _ => false) &&
    (match findKey "topic".data ms with | some (Json.str _) => true | _ => false) &&
    (match findKey "difficulty".data ms with | some (Json.str _) => true | _ => false) &&
    (match findKey "parts".data ms with | some (Json.arr ps) => partsOk ps | _ => false)
  | _ => false


/-- Whether a list starts with the character `b`. -/
def firstIs (b : Char) : List Char → Bool
  | [] => false
  | c :: _ => c = b

/-! ## Theorems -/

/-! ### C1 — the `StructuredJSON` failure contract -/

/-- C1 (counterexample): the raw text `\x7b\x7d` is valid JSON with the
required `parts` field absent, yet interpretation under `StructuredJSON`
succeeds and returns the part-less object — it does not fail with a
`MalformedResponse`. -/
theorem c1_missing_parts_not_rejected :
    interpretStructured "\x7b\x7d".data = Except.ok (Json.obj JMembers.nil)
    ∧ getField (Json.obj JMembers.nil) "parts" = none := by
  exact ⟨rfl, rfl⟩

/-- C1 (amended): interpretation under `StructuredJSON` fails exactly when
the text does not parse as JSON, and the failure message carries the raw
text verbatim (appended to the fixed prefix `Invalid JSON returned:\n`);
when the text parses, the parsed value is returned unchanged, with no check
that required fields such as `parts` are present. -/
theorem c1_interpret_malformed (raw : List Char) :
    (loads raw = none →
      interpretStructured raw = Except.error ("Invalid JSON returned:\n".data ++ raw))
    ∧ (∀ v, loads raw = some v → interpretStructured raw = Except.ok v) := by
  constructor
  · intro h
    simp [interpretStructured, h, invalidJsonMsg]
  · intro v h
    simp [interpretStructured, h]

/-- C1 (witness): at the spec's own example `not json`, the failure carries
the raw text. -/
theorem c1_interpret_malformed_witness :
    interpretStructured "not json".data =
      Except.error ("Invalid JSON returned:\n".data ++ "not json".data) :=
  (c1_interpret_malformed "not json".data).1 (by rfl)

/-! ### C3 — the worksheet instruction text both requires and forbids the
same delimiter -/

/-- C3 (code evaluation): on the concrete worksheet request
(topic `Algebra`, subtopics `Quadratics`, difficulty `Easy`), every
worksheet-mode system instruction contains both the sentence requiring the
`$$ ... $$` delimiter and the sentence forbidding it. -/
theorem c3_delimiter_required_and_forbidden :
    (occurs "Wrap EVERY LaTeX expression in $$ ... $$. ".data
        (worksheetSystemPrompt "Easy" "Quadratics").data = true
      ∧ occurs "Never use $$ ... $$ under any circumstances.".data
        (worksheetSystemPrompt "Easy" "Quadratics").data = true)
    ∧ (occurs "Wrap EVERY LaTeX expression in $$ ... $$. ".data
        balancedSystemPrompt.data = true
      ∧ occurs "Never use $$ ... $$ under any circumstances.".data
        balancedSystemPrompt.data = true)
    ∧ (occurs "Wrap EVERY LaTeX expression in $$ ... $$. ".data
        examStyleSystemPrompt.data = true
      ∧ occurs "Never use $$ ... $$ under any circumstances.".data
        examStyleSystemPrompt.data = true) := by
  exact ⟨⟨by decide, by decide⟩, ⟨by decide, by decide⟩, ⟨by decide, by decide⟩⟩

/-! ### C4 — the `FreeText` interpretation -/

/-- C4 (counterexample): `generate_answer` returns the completion content
verbatim; for a reply with surrounding whitespace the result differs from
the trimmed text the claim promises. -/
theorem c4_freetext_not_trimmed :
    generate_answer (fun _ _ => " x ") "q" "t" "d" = " x "
    ∧ strip " x ".data = "x".data
    ∧ " x ".data ≠ "x".data := by
  exact ⟨rfl, by decide, by decide⟩

/-- C4 (amended): interpretation under `FreeText` always succeeds and
returns the completion text verbatim — with no trimming at all: both
free-text generators return the oracle's output unchanged. -/
theorem c4_freetext_verbatim (complete : String → String → String)
    (question topic difficulty : String) :
    generate_answer complete question topic difficulty =
      complete (answerSystemPrompt difficulty) (answerUserPrompt topic question)
    ∧ generate_similar_question complete question topic difficulty =
      complete similarSystemPrompt (similarUserPrompt topic question) := by
  exact ⟨rfl, rfl⟩

/-! ### C8 — the Prompt Builder is pure -/

/-- C8: for every mode, prompt construction is deterministic — the same
request yields the identical instruction pair — and performs no completion
call: each of the six generators factors as its pure builder followed by
exactly one oracle application, so no instruction pair ever depends on the
oracle. -/
theorem c8_prompt_builder_pure :
    (∀ topic marks, buildExamPrompts topic marks = buildExamPrompts topic marks)
    ∧ (∀ (complete : String → String → String) topic marks,
        generate_exam_question complete topic marks =
          interpretStructured (strip ((complete (buildExamPrompts topic marks).1
            (buildExamPrompts topic marks).2).data)))
    ∧ (∀ topic subtopics difficulty,
        buildWorksheetPrompts topic subtopics difficulty =
          buildWorksheetPrompts topic subtopics difficulty)
    ∧ (∀ (complete : String → String → String) topic subtopics difficulty,
        generate_worksheet complete topic subtopics difficulty =
          lineList ((complete (buildWorksheetPrompts topic subtopics difficulty).1
            (buildWorksheetPrompts topic subtopics difficulty).2).data))
    ∧ (∀ topic subtopics,
        buildBalancedPrompts topic subtopics = buildBalancedPrompts topic subtopics)
    ∧ (∀ (complete : String → String → String) topic subtopics,
        generate_balanced_worksheet complete topic subtopics =
          lineList ((complete (buildBalancedPrompts topic subtopics).1
            (buildBalancedPrompts topic subtopics).2).data))
    ∧ (∀ topic subtopics,
        buildExamStylePrompts topic subtopics = buildExamStylePrompts topic subtopics)
    ∧ (∀ (complete : String → String → String) topic subtopics,
        generate_exam_style_worksheet complete topic subtopics =
          lineList ((complete (buildExamStylePrompts topic subtopics).1
            (buildExamStylePrompts topic subtopics).2).data))
    ∧ (∀ question topic difficulty,
        buildAnswerPrompts question topic difficulty =
          buildAnswerPrompts question topic difficulty)
    ∧ (∀ (complete : String → String → String) question topic difficulty,
        generate_answer complete question topic difficulty =
          complete (buildAnswerPrompts question topic difficulty).1
            (buildAnswerPrompts question topic difficulty).2)
    ∧ (∀ question topic difficulty,
        buildSimilarPrompts question topic difficulty =
          buildSimilarPrompts question topic difficulty)
    ∧ (∀ (complete : String → String → String) question topic difficulty,
        generate_similar_question complete question topic difficulty =
          complete (buildSimilarPrompts question topic difficulty).1
            (buildSimilarPrompts question topic difficulty).2) := by
  exact ⟨fun _ _ => rfl, fun _ _ _ => rfl, fun _ _ _ => rfl, fun _ _ _ _ => rfl,
    fun _ _ => rfl, fun _ _ _ => rfl, fun _ _ => rfl, fun _ _ _ => rfl,
    fun _ _ _ => rfl, fun _ _ _ _ => rfl, fun _ _ _ => rfl, fun _ _ _ _ => rfl⟩

/-! ### C9 — the request invariant -/

/-- C9 (counterexample): a worksheet-mode request with an empty subtopics
sequence is processed, not rejected: the builder produces its instruction
pair (with an empty `Subtopics:` slot) and the pipeline returns a
worksheet. -/
theorem c9_empty_subtopics_processed :
    (buildWorksheetPrompts "Algebra" [] "Easy").2 =
      "Create a Easy worksheet on Algebra. Subtopics: . Ensure ALL maths is in LaTeX wrapped in $$ ... $$."
    ∧ generate_worksheet (fun _ _ => "1. q") "Algebra" [] "Easy" = ["1. q".data] := by
  exact ⟨rfl, by decide⟩

/-- C9 (amended): `totalMarks` always comes from the fixed selectbox list
and is one of 25, 50, 75; the subtopics sequence, however, is not
constrained — a worksheet-mode request with empty subtopics flows through
(`", ".join` of the empty selection is the empty string). -/
theorem c9_marks_fixed_subtopics_unchecked :
    (∀ m : Int, m ∈ marksOptions → m = 25 ∨ m = 50 ∨ m = 75)
    ∧ (∀ (complete : String → String → String) topic difficulty,
        generate_worksheet complete topic [] difficulty =
          lineList ((complete (worksheetSystemPrompt difficulty "")
            (worksheetUserPrompt difficulty topic "")).data)) := by
  constructor
  · intro m hm
    simp [marksOptions] at hm
    rcases hm with h | h | h
    · exact Or.inl h
    · exact Or.inr (Or.inl h)
    · exact Or.inr (Or.inr h)
  · intro _ _ _
    rfl

/-- C9 (witness): the first selectbox option. -/
theorem c9_marks_fixed_witness :
    (25 : Int) = 25 ∨ (25 : Int) = 50 ∨ (25 : Int) = 75 :=
  c9_marks_fixed_subtopics_unchecked.1 25 (by decide)

/-! ### C10 — a failed generation leaves the cached question unchanged -/

/-- C10: if `generate_exam_question` fails with the malformed-response
error, the click handler leaves the `exam_question` session slot at its
previous value — the exception is raised before the assignment. -/
theorem c10_failure_preserves_cache (complete : String → String → String)
    (prev : Option Json) (topic : String) (marks : Int) (e : List Char)
    (herr : generate_exam_question complete topic marks = Except.error e) :
    onGenerateClick complete prev topic marks = prev := by
  simp [onGenerateClick, herr]

/-- C10 (witness): a completion reply of `not json` fails, and the
previously cached question survives. -/
theorem c10_failure_preserves_cache_witness :
    onGenerateClick (fun _ _ => "not json") (some (Json.num 7)) "Algebra" 25 =
      some (Json.num 7) :=
  c10_failure_preserves_cache (fun _ _ => "not json") (some (Json.num 7)) "Algebra" 25
    ("Invalid JSON returned:\n".data ++ "not json".data) (by rfl)

/-! ### C2 helper lemmas -/

theorem strip_eq_nil_iff (q : List Char) : strip q = [] ↔ q.all pySpace = true := by
  unfold strip
  rw [List.reverse_eq_nil_iff, List.dropWhile_eq_nil_iff, List.all_eq_true]
  constructor
  · intro h c hc
    have hsplit := List.takeWhile_append_dropWhile (p := pySpace) (l := q)
    rw [← hsplit] at hc
    rcases List.mem_append.mp hc with h1 | h2
    · exact List.mem_takeWhile_imp h1
    · exact h (c) (List.mem_reverse.mpr h2)
  · intro h c hc
    have hc2 := List.mem_reverse.mp hc
    have hsplit := List.takeWhile_append_dropWhile (p := pySpace) (l := q)
    exact h c (by rw [← hsplit]; exact List.mem_append.mpr (Or.inr hc2))

theorem strip_isEmpty_eq (q : List Char) : (strip q).isEmpty = q.all pySpace := by
  rcases h : q.all pySpace with _ | _
  · rcases h2 : (strip q).isEmpty with _ | _
    · rfl
    · rw [List.isEmpty_iff] at h2
      rw [(strip_eq_nil_iff q).mp h2] at h
      cases h
  · rw [List.isEmpty_iff, (strip_eq_nil_iff q)]
    exact h

theorem splitNl_chars_sub (t : List Char) :
    ∀ l ∈ splitNl t, ∀ c ∈ l, c ∈ t := by
  induction t with
  | nil =>
    intro l hl c hc
    simp [splitNl] at hl
    subst hl
    cases hc
  | cons a t ih =>
    intro l hl c hc
    by_cases ha : a = '\n'
    · rw [splitNl, if_pos ha] at hl
      rcases List.mem_cons.mp hl with h1 | h2
      · subst h1; cases hc
      · exact List.mem_cons_of_mem a (ih l h2 c hc)
    · rw [splitNl, if_neg ha] at hl
      rcases hsp : splitNl t with _ | ⟨line, more⟩
      · rw [hsp] at hl
        simp at hl
        subst hl
        cases List.mem_singleton.mp hc
        exact List.mem_cons_self _ _
      · rw [hsp] at hl
        rcases List.mem_cons.mp hl with h1 | h2
        · subst h1
          rcases List.mem_cons.mp hc with hh | hc2
          · cases hh; exact List.mem_cons_self _ _
          · exact List.mem_cons_of_mem a (ih line (hsp ▸ List.mem_cons_self line more) c hc2)
        · exact List.mem_cons_of_mem a (ih l (hsp ▸ List.mem_cons_of_mem line h2) c hc)

/-- C2: the `LineList` interpretation returns exactly the non-whitespace-only
lines, in order, each trimmed; it is a total function, and on
whitespace-only (in particular empty) input it returns the empty sequence. -/
theorem c2_lineList_lines (t : List Char) :
    lineList t = ((splitNl t).filter (fun l => !(l.all pySpace))).map strip
    ∧ (t.all pySpace = true → lineList t = []) := by
  have hfun : (fun q : List Char => !(strip q).isEmpty) = (fun l => !(l.all pySpace)) := by
    funext q
    rw [strip_isEmpty_eq]
  constructor
  · rw [lineList, hfun]
  · intro hall
    rw [lineList, hfun]
    have : List.filter (fun l => !(l.all pySpace)) (splitNl t) = [] := by
      rw [List.filter_eq_nil_iff]
      intro l hl
      have : l.all pySpace = true := by
        rw [List.all_eq_true]
        intro c hc
        exact (List.all_eq_true.mp hall) c (splitNl_chars_sub t l hl c hc)
      simp [this]
    rw [this]
    rfl

/-- C2 (witness): a whitespace-only reply yields the empty worksheet. -/
theorem c2_lineList_lines_witness : lineList "  \n \t \n".data = [] :=
  (c2_lineList_lines "  \n \t \n".data).2 (by decide)

/-! ### C7 helper lemmas -/

theorem hasAdj_cons_eq (a b c : Char) (l : List Char) :
    hasAdj a b (c :: l) = ((decide (c = a) && firstIs b l) || hasAdj a b l) := by
  cases l with
  | nil => simp [hasAdj, firstIs]
  | cons d l2 => simp [hasAdj, firstIs]

theorem swapPair_id_of_no_adj (a b : Char) (rep : List Char) :
    ∀ s, hasAdj a b s = false → swapPair a b rep s = s
  | [], _ => rfl
  | [c], _ => rfl
  | c1 :: c2 :: cs, h => by
    rw [hasAdj] at h
    rcases Bool.or_eq_false_iff.mp h with ⟨h1, h2⟩
    have hne : ¬(c1 = a ∧ c2 = b) := by
      rcases Bool.and_eq_false_iff.mp h1 with h3 | h3 <;>
        exact fun hx => by simp [hx.1, hx.2] at h3
    rw [swapPair, if_neg hne, swapPair_id_of_no_adj a b rep (c2 :: cs) h2]

theorem firstIs_swapPair (a b2 r b : Char) (hrb : r ≠ b) :
    ∀ s, firstIs b (swapPair a b2 [r] s) = true → firstIs b s = true
  | [], h => h
  | [c], h => h
  | c1 :: c2 :: cs, h => by
    rw [swapPair] at h
    by_cases hm : c1 = a ∧ c2 = b2
    · rw [if_pos hm] at h
      simp [firstIs, hrb] at h
    · rw [if_neg hm] at h
      exact h

theorem hasAdj_swapPair_self (a b r : Char) (hra : r ≠ a) (hrb : r ≠ b) :
    ∀ s, hasAdj a b (swapPair a b [r] s) = false
  | [] => rfl
  | [c] => by simp [swapPair, hasAdj]
  | c1 :: c2 :: cs => by
    rw [swapPair]
    by_cases hm : c1 = a ∧ c2 = b
    · rw [if_pos hm]
      rw [List.singleton_append, hasAdj_cons_eq]
      simp [hra, hasAdj_swapPair_self a b r hra hrb cs]
    · rw [if_neg hm]
      rw [hasAdj_cons_eq]
      have htail := hasAdj_swapPair_self a b r hra hrb (c2 :: cs)
      rw [htail]
      by_cases hc1 : c1 = a
      · have hc2 : ¬(c2 = b) := fun hc2 => hm ⟨hc1, hc2⟩
        rcases hfi : firstIs b (swapPair a b [r] (c2 :: cs)) with _ | _
        · simp
        · have := firstIs_swapPair a b r b hrb (c2 :: cs) hfi
          simp [firstIs] at this
          exact absurd this hc2
      · simp [hc1]
  termination_by s => s.length

theorem hasAdj_swapPair_other (a b b2 r : Char) (hra : r ≠ a) (hrb : r ≠ b) :
    ∀ s, hasAdj a b s = false → hasAdj a b (swapPair a b2 [r] s) = false
  | [], _ => rfl
  | [c], _ => by simp [swapPair, hasAdj]
  | c1 :: c2 :: cs, h => by
    rw [hasAdj] at h
    rcases Bool.or_eq_false_iff.mp h with ⟨h1, h2⟩
    rw [swapPair]
    by_cases hm : c1 = a ∧ c2 = b2
    · rw [if_pos hm]
      rw [List.singleton_append, hasAdj_cons_eq]
      have hcs : hasAdj a b cs = false := by
        rcases cs with _ | ⟨c3, cs2⟩
        · rfl
        · rw [hasAdj_cons_eq] at h2
          exact (Bool.or_eq_false_iff.mp h2).2
      simp [hra, hasAdj_swapPair_other a b b2 r hra hrb cs hcs]
    · rw [if_neg hm]
      rw [hasAdj_cons_eq]
      have htail := hasAdj_swapPair_other a b b2 r hra hrb (c2 :: cs) h2
      rw [htail]
      by_cases hc1 : c1 = a
      · have hc2 : ¬(c2 = b) := by
          intro hc2
          simp [hc1, hc2] at h1
        rcases hfi : firstIs b (swapPair a b2 [r] (c2 :: cs)) with _ | _
        · simp
        · have := firstIs_swapPair a b2 r b hrb (c2 :: cs) hfi
          simp [firstIs] at this
          exact absurd this hc2
      · simp [hc1]
  termination_by s => s.length

/-- C7: the markup-normalization step is idempotent. -/
theorem c7_normalize_idempotent (t : List Char) :
    normalize (normalize t) = normalize t := by
  unfold normalize
  have h1 : hasAdj '\\' '(' (swapPair '\\' '(' ['$'] t) = false :=
    hasAdj_swapPair_self '\\' '(' '$' (by decide) (by decide) t
  have h2 : hasAdj '\\' '(' (swapPair '\\' ')' ['$'] (swapPair '\\' '(' ['$'] t)) = false :=
    hasAdj_swapPair_other '\\' '(' ')' '$' (by decide) (by decide) _ h1
  rw [swapPair_id_of_no_adj '\\' '(' ['$'] _ h2]
  have h3 : hasAdj '\\' ')' (swapPair '\\' ')' ['$'] (swapPair '\\' '(' ['$'] t)) = false :=
    hasAdj_swapPair_self '\\' ')' '$' (by decide) (by decide) _
  rw [swapPair_id_of_no_adj '\\' ')' ['$'] _ h3]

/-! ### C5 groundwork: digits and integer tokens -/

theorem char48_toNat (k : Nat) (h : k < 10) : (Char.ofNat (48 + k)).toNat = 48 + k := by
  interval_cases k <;> decide

theorem char48_isDig (k : Nat) (h : k < 10) : isDig (Char.ofNat (48 + k)) = true := by
  interval_cases k <;> decide

theorem char48_ne_zero (k : Nat) (h : k < 10) (h0 : k ≠ 0) : Char.ofNat (48 + k) ≠ '0' := by
  interval_cases k
  · exact absurd rfl h0
  all_goals decide

theorem natChars_unfold (n : Nat) :
    natChars n = if n < 10 then [Char.ofNat (48 + n)]
      else natChars (n / 10) ++ [Char.ofNat (48 + n % 10)] := by
  rw [natChars]

theorem natChars_all_digits (n : Nat) : ∀ c ∈ natChars n, isDig c = true := by
  induction n using Nat.strong_induction_on with
  | _ n ih =>
    intro c hc
    rw [natChars_unfold] at hc
    by_cases h : n < 10
    · rw [if_pos h] at hc
      cases List.mem_singleton.mp hc
      exact char48_isDig n h
    · rw [if_neg h] at hc
      rcases List.mem_append.mp hc with h1 | h2
      · exact ih (n / 10) (Nat.div_lt_self (by omega) (by omega)) c h1
      · cases List.mem_singleton.mp h2
        exact char48_isDig (n % 10) (Nat.mod_lt _ (by omega))

theorem natChars_shape (n : Nat) :
    ∃ c t, natChars n = c :: t ∧ isDig c = true ∧ (n ≠ 0 → c ≠ '0') := by
  induction n using Nat.strong_induction_on with
  | _ n ih =>
    rw [natChars_unfold]
    by_cases h : n < 10
    · rw [if_pos h]
      exact ⟨_, _, rfl, char48_isDig n h, fun h0 => char48_ne_zero n h h0⟩
    · rw [if_neg h]
      obtain ⟨c, t, hrep, hdig, hne⟩ := ih (n / 10) (Nat.div_lt_self (by omega) (by omega))
      refine ⟨c, t ++ [Char.ofNat (48 + n % 10)], ?_, hdig, fun _ => ?_⟩
      · rw [hrep]; rfl
      · exact hne (by omega)

theorem digitsNat_snoc (ds : List Char) (c : Char) :
    digitsNat (ds ++ [c]) = digitsNat ds * 10 + (c.toNat - 48) := by
  simp [digitsNat, List.foldl_append]

theorem digitsNat_natChars (n : Nat) : digitsNat (natChars n) = n := by
  induction n using Nat.strong_induction_on with
  | _ n ih =>
    rw [natChars_unfold]
    by_cases h : n < 10
    · rw [if_pos h]
      show digitsNat ([] ++ [Char.ofNat (48 + n)]) = n
      rw [digitsNat_snoc, char48_toNat n h]
      simp [digitsNat]
    · rw [if_neg h, digitsNat_snoc, ih (n / 10) (Nat.div_lt_self (by omega) (by omega)),
        char48_toNat (n % 10) (Nat.mod_lt _ (by omega))]
      omega

theorem grabDigits_stop (s : List Char) (h : noDigHead s = true) : grabDigits s = ([], s) := by
  cases s with
  | nil => rfl
  | cons c t =>
    have : isDig c = false := by
      rw [noDigHead] at h
      rcases hd : isDig c with _ | _
      · rfl
      · rw [hd] at h; cases h
    simp [grabDigits, this]

theorem grabDigits_run (ds : List Char) (hds : ∀ c ∈ ds, isDig c = true)
    (rest : List Char) (hr : noDigHead rest = true) :
    grabDigits (ds ++ rest) = (ds, rest) := by
  induction ds with
  | nil => simpa using grabDigits_stop rest hr
  | cons c t ih =>
    have hc : isDig c = true := hds c (List.mem_cons_self _ _)
    have ht := ih (fun x hx => hds x (List.mem_cons_of_mem c hx))
    simp [grabDigits, hc, ht]

theorem parseIntBody_natChars (n : Nat) (rest : List Char) (hr : noDigHead rest = true) :
    parseIntBody (natChars n ++ rest) = some (n, rest) := by
  by_cases h0 : n = 0
  · subst h0
    rw [natChars_unfold, if_pos (by omega : (0:Nat) < 10)]
    show parseIntBody ('0' :: rest) = some (0, rest)
    simp [parseIntBody]
  · obtain ⟨c, t, hrep, hdig, hne⟩ := natChars_shape n
    have hc0 : c ≠ '0' := hne h0
    have hgrab : grabDigits (c :: t ++ rest) = (c :: t, rest) :=
      grabDigits_run (c :: t) (by rw [← hrep]; exact natChars_all_digits n) rest hr
    rw [hrep, List.cons_append]
    simp only [parseIntBody, if_neg hc0, if_pos hdig]
    rw [List.cons_append] at hgrab
    simp only [hgrab, ← hrep, digitsNat_natChars]

theorem isDig_ne_minus (c : Char) (h : isDig c = true) : c ≠ '-' := by
  intro hc
  rw [hc] at h
  exact absurd h (by decide)

theorem parseIntTok_intChars (i : Int) (rest : List Char) (hr : noDigHead rest = true) :
    parseIntTok (intChars i ++ rest) = some (i, rest) := by
  by_cases hneg : i < 0
  · rw [intChars, if_pos hneg, List.cons_append]
    simp only [parseIntTok, if_pos rfl]
    rw [parseIntBody_natChars i.natAbs rest hr]
    simp only [Option.map_some', if_true]
    have hval : -((i.natAbs : Int)) = i := by omega
    rw [hval]
  · rw [intChars, if_neg hneg]
    obtain ⟨c, t, hrep, hdig, hne⟩ := natChars_shape i.natAbs
    rw [hrep, List.cons_append]
    simp only [parseIntTok, if_neg (isDig_ne_minus c hdig)]
    rw [← List.cons_append, ← hrep, parseIntBody_natChars i.natAbs rest hr]
    simp only [Option.map_some']
    have hval : ((i.natAbs : Int)) = i := by omega
    rw [hval]

/-! ### C5 groundwork: string bodies -/

theorem hexDigVal_hexDigChar (m : Nat) (h : m < 16) : hexDigVal (hexDigChar m) = some m := by
  interval_cases m <;> decide

theorem parseStrBody_escStep (c : Char) (u : List Char) :
    parseStrBody (escChar c ++ u) = (parseStrBody u).map (fun p => (c :: p.1, p.2)) := by
  by_cases hq : c = '"'
  · subst hq
    simp only [escChar, if_pos rfl, List.cons_append, List.nil_append]
    rw [parseStrBody.eq_def]
    simp [shortEsc]
  · by_cases hb : c = '\\'
    · subst hb
      simp only [escChar, if_neg (by decide : ¬('\\' = '"')), if_pos rfl,
        List.cons_append, List.nil_append]
      rw [parseStrBody.eq_def]
      simp [shortEsc]
    · by_cases hc : c.toNat < 32
      · simp only [escChar, if_neg hq, if_neg hb, if_pos hc, List.cons_append, List.nil_append]
        rw [parseStrBody.eq_def]
        have h1 : hexDigVal (hexDigChar (c.toNat / 16)) = some (c.toNat / 16) :=
          hexDigVal_hexDigChar _ (by omega)
        have h2 : hexDigVal (hexDigChar (c.toNat % 16)) = some (c.toNat % 16) :=
          hexDigVal_hexDigChar _ (by omega)
        have hval : hexDigVal '0' = some 0 := by decide
        simp [h1, h2, hval]
        have harith2 : c.toNat / 16 * 16 + c.toNat % 16 = c.toNat := by omega
        rw [harith2]
        have hns : ¬(55296 ≤ c.toNat ∧ c.toNat < 57344) := by omega
        rw [if_neg hns, Char.ofNat_toNat]
      · simp only [escChar, if_neg hq, if_neg hb, if_neg hc, List.cons_append, List.nil_append]
        rw [parseStrBody.eq_def]
        simp only [if_neg hq, if_neg hb, if_neg hc]

theorem parseStrBody_flat (s : List Char) : ∀ rest : List Char,
    parseStrBody (s.flatMap escChar ++ ('"' :: rest)) = some (s, rest) := by
  induction s with
  | nil =>
    intro rest
    rw [List.flatMap_nil, List.nil_append, parseStrBody.eq_def]
    simp
  | cons c cs ih =>
    intro rest
    rw [List.flatMap_cons, List.append_assoc, parseStrBody_escStep, ih rest]
    rfl

theorem dumpStr_eq (s : List Char) (rest : List Char) :
    dumpStr s ++ rest = '"' :: (s.flatMap escChar ++ ('"' :: rest)) := by
  simp [dumpStr]

/-! ### C5 groundwork: whitespace and parser steps -/

theorem chewWs_not_ws (c : Char) (t : List Char) (h : jsonWs c = false) :
    chewWs (c :: t) = c :: t := by
  simp [chewWs, List.dropWhile_cons, h]

theorem chewWs_space (u : List Char) : chewWs (' ' :: u) = chewWs u := by
  rw [chewWs, chewWs, List.dropWhile_cons, if_pos (by decide : jsonWs ' ' = true)]

theorem parseVal_step (fuel : Nat) (s : List Char) :
    parseVal (fuel + 1) s =
      (match chewWs s with
       | [] => none
       | c :: r =>
         if c = 'n' then (afterLit ['u', 'l', 'l'] r).map (fun t => (Json.null, t))
         else if c = 't' then (afterLit ['r', 'u', 'e'] r).map (fun t => (Json.bool true, t))
         else if c = 'f' then (afterLit ['a', 'l', 's', 'e'] r).map (fun t => (Json.bool false, t))
         else if c = '"' then (parseStrBody r).map (fun p => (Json.str p.1, p.2))
         else if c = '[' then
           match chewWs r with
           | [] => none
           | c2 :: r2 =>
             if c2 = ']' then some (Json.arr .nil, r2)
             else
               match parseVal fuel (c2 :: r2) with
               | none => none
               | some (v, r3) =>
                 match parseArrTail fuel r3 with
                 | none => none
                 | some (vs, r4) => some (Json.arr (.cons v vs), r4)
         else if c = '\x7b' then
           match chewWs r with
           | [] => none
           | c2 :: r2 =>
             if c2 = '\x7d' then some (Json.obj .nil, r2)
             else
               match parseMemsFrom fuel (c2 :: r2) with
               | none => none
               | some (ms, r3) => some (Json.obj (dedupMembers ms), r3)
         else if c = '-' || isDig c then
           (parseIntTok (c :: r)).map (fun p => (Json.num p.1, p.2))
         else none) := rfl

theorem parseArrTail_step (fuel : Nat) (s : List Char) :
    parseArrTail (fuel + 1) s =
      (match chewWs s with
       | ']' :: t => some (.nil, t)
       | ',' :: t =>
         (match parseVal fuel t with
          | none => none
          | some (v, r1) =>
            match parseArrTail fuel r1 with
            | none => none
            | some (vs, r2) => some (.cons v vs, r2))
       | _ => none) := rfl

theorem parseMemsFrom_step (fuel : Nat) (s : List Char) :
    parseMemsFrom (fuel + 1) s =
      (match s with
       | '"' :: r =>
         (match parseStrBody r with
          | none => none
          | some (k, r1) =>
            match chewWs r1 with
            | ':' :: r2 =>
              (match parseVal fuel r2 with
               | none => none
               | some (v, r3) =>
                 match chewWs r3 with
                 | '\x7d' :: t => some (.cons k v .nil, t)
                 | ',' :: t =>
                   (match parseMemsFrom fuel (chewWs t) with
                    | none => none
                    | some (ms, r4) => some (.cons k v ms, r4))
                 | _ => none)
            | _ => none)
       | _ => none) := rfl

/-! ### C5 groundwork: heads of serialized output -/

theorem isDig_bounds (c : Char) (h : isDig c = true) : 48 ≤ c.toNat ∧ c.toNat ≤ 57 := by
  rw [isDig, Bool.and_eq_true, decide_eq_true_eq, decide_eq_true_eq] at h
  obtain ⟨h1, h2⟩ := h
  exact ⟨h1, h2⟩

theorem isDig_props (c : Char) (h : isDig c = true) :
    jsonWs c = false ∧ c ≠ 'n' ∧ c ≠ 't' ∧ c ≠ 'f' ∧ c ≠ '"' ∧ c ≠ '[' ∧ c ≠ '\x7b' ∧
      c ≠ ']' ∧ c ≠ '\x7d' ∧ c ≠ ',' ∧ c ≠ ':' := by
  obtain ⟨hlo, hhi⟩ := isDig_bounds c h
  have hval : ∀ d : Char, c = d → c.toNat = d.toNat := fun d hd => by rw [hd]
  refine ⟨?_, ?_, ?_, ?_, ?_, ?_, ?_, ?_, ?_, ?_, ?_⟩
  · rw [jsonWs]
    have h1 : ¬(c = ' ') := fun hc => by have := hval _ hc; simp at this; omega
    have h2 : ¬(c = '\t') := fun hc => by have := hval _ hc; simp at this; omega
    have h3 : ¬(c = '\n') := fun hc => by have := hval _ hc; simp at this; omega
    have h4 : ¬(c = '\r') := fun hc => by have := hval _ hc; simp at this; omega
    simp [h1, h2, h3, h4]
  all_goals intro hc; have := hval _ hc; simp at this; omega

/-- The first character of a serialized value: never whitespace, never a
closer or separator. -/
theorem dumps_shape (v : Json) :
    ∃ c t, dumps v = c :: t ∧ jsonWs c = false ∧ c ≠ ']' ∧ c ≠ '\x7d' ∧ c ≠ ',' := by
  cases v with
  | null => exact ⟨'n', _, rfl, by decide, by decide, by decide, by decide⟩
  | bool b =>
    cases b with
    | true => exact ⟨'t', _, rfl, by decide, by decide, by decide, by decide⟩
    | false => exact ⟨'f', _, rfl, by decide, by decide, by decide, by decide⟩
  | str s => exact ⟨'"', _, rfl, by decide, by decide, by decide, by decide⟩
  | arr vs =>
    cases vs with
    | nil => exact ⟨'[', _, rfl, by decide, by decide, by decide, by decide⟩
    | cons v vs => exact ⟨'[', _, rfl, by decide, by decide, by decide, by decide⟩
  | obj ms => exact ⟨'\x7b', _, rfl, by decide, by decide, by decide, by decide⟩
  | num i =>
    rw [dumps]
    by_cases hneg : i < 0
    · rw [intChars, if_pos hneg]
      exact ⟨'-', _, rfl, by decide, by decide, by decide, by decide⟩
    · rw [intChars, if_neg hneg]
      obtain ⟨c, t, hrep, hdig, _⟩ := natChars_shape i.natAbs
      obtain ⟨hws, _, _, _, _, _, _, hbr, hbc, hcm, _⟩ := isDig_props c hdig
      exact ⟨c, t, hrep, hws, hbr, hbc, hcm⟩

theorem chewWs_dumps (v : Json) (x : List Char) :
    chewWs (dumps v ++ x) = dumps v ++ x := by
  obtain ⟨c, t, hrep, hws, _, _, _⟩ := dumps_shape v
  rw [hrep, List.cons_append, chewWs_not_ws c _ hws]

theorem noDigHead_arrTail (vs : JList) (x : List Char) :
    noDigHead (dumpArrTail vs ++ x) = true := by
  cases vs with
  | nil => rfl
  | cons v vs => rfl

theorem noDigHead_objTail (ms : JMembers) (x : List Char) :
    noDigHead (dumpObjTail ms ++ x) = true := by
  cases ms with
  | nil => rfl
  | cons k v ms => rfl

/-! ### C5 groundwork: dict folding -/

theorem mcat_nil_right : ∀ ms : JMembers, mcat ms .nil = ms
  | .nil => rfl
  | .cons k v ms => by rw [mcat, mcat_nil_right ms]

theorem mcat_single (k : List Char) (v : Json) (ms : JMembers) :
    mcat (.cons k v .nil) ms = .cons k v ms := rfl

theorem mcat_assoc : ∀ a b c : JMembers, mcat (mcat a b) c = mcat a (mcat b c)
  | .nil, _, _ => rfl
  | .cons k v a, b, c => by rw [mcat, mcat, mcat, mcat_assoc a b c]

theorem hasKey_mcat (q : List Char) : ∀ a b : JMembers,
    hasKey q (mcat a b) = (hasKey q a || hasKey q b)
  | .nil, b => by rw [mcat, hasKey, Bool.false_or]
  | .cons k v a, b => by
    rw [mcat, hasKey, hasKey, hasKey_mcat q a b, Bool.or_assoc]

theorem putKey_fresh (k : List Char) (v : Json) : ∀ acc : JMembers,
    hasKey k acc = false → putKey k v acc = mcat acc (.cons k v .nil)
  | .nil, _ => rfl
  | .cons k2 v2 acc, h => by
    rw [hasKey, Bool.or_eq_false_iff] at h
    obtain ⟨h1, h2⟩ := h
    rw [putKey, if_neg (by simpa using h1), mcat, putKey_fresh k v acc h2]

theorem dedupFrom_disjoint : ∀ (ms : JMembers) (acc : JMembers),
    (∀ q, hasKey q acc = true → hasKey q ms = false) → uniqKeys ms = true →
    dedupFrom acc ms = mcat acc ms
  | .nil, acc, _, _ => by rw [dedupFrom, mcat_nil_right]
  | .cons k v ms, acc, hdis, hu => by
    rw [uniqKeys, Bool.and_eq_true] at hu
    obtain ⟨hk, hu2⟩ := hu
    have hfresh : hasKey k acc = false := by
      rcases hacc : hasKey k acc with _ | _
      · rfl
      · have hkm := hdis k hacc
        simp [hasKey] at hkm
    rw [dedupFrom, putKey_fresh k v acc hfresh]
    rw [dedupFrom_disjoint ms (mcat acc (.cons k v .nil)) ?_ hu2]
    · rw [mcat_assoc, mcat_single]
    · intro q hq
      rw [hasKey_mcat, Bool.or_eq_true] at hq
      rcases hq with hq | hq
      · have hqm := hdis q hq
        rw [hasKey, Bool.or_eq_false_iff] at hqm
        exact hqm.2
      · simp only [hasKey, Bool.or_false] at hq
        have hqk : k = q := by simpa using hq
        subst hqk
        simpa using hk

theorem dedup_id (ms : JMembers) (hu : uniqKeys ms = true) : dedupMembers ms = ms := by
  rw [dedupMembers, dedupFrom_disjoint ms .nil (fun q hq => by rw [hasKey] at hq; cases hq) hu]
  rfl

theorem hasKey_putKey (q k : List Char) (v : Json) : ∀ ms : JMembers,
    hasKey q (putKey k v ms) = (hasKey q ms || k = q)
  | .nil => by simp [putKey, hasKey]
  | .cons k2 v2 ms => by
    by_cases hk : k2 = k
    · rw [putKey, if_pos hk, hasKey, hasKey]
      subst hk
      by_cases hq : k2 = q
      · simp [hq]
      · simp [hq]
    · rw [putKey, if_neg hk, hasKey, hasKey, hasKey_putKey q k v ms, Bool.or_assoc]

theorem uniqKeys_putKey (k : List Char) (v : Json) : ∀ ms : JMembers,
    uniqKeys (putKey k v ms) = uniqKeys ms
  | .nil => by simp [putKey, uniqKeys, hasKey]
  | .cons k2 v2 ms => by
    by_cases hk : k2 = k
    · rw [putKey, if_pos hk, uniqKeys, uniqKeys]
    · rw [putKey, if_neg hk, uniqKeys, uniqKeys, uniqKeys_putKey k v ms, hasKey_putKey]
      have hne : (decide (k = k2)) = false := decide_eq_false (fun h => hk h.symm)
      simp [hne]

theorem dedupFrom_uniq : ∀ (ms acc : JMembers), uniqKeys acc = true →
    uniqKeys (dedupFrom acc ms) = true
  | .nil, acc, h => h
  | .cons k v ms, acc, h => by
    rw [dedupFrom]
    exact dedupFrom_uniq ms (putKey k v acc) (by rw [uniqKeys_putKey]; exact h)

theorem dedup_uniq (ms : JMembers) : uniqKeys (dedupMembers ms) = true :=
  dedupFrom_uniq ms .nil rfl

theorem wfM_putKey (k : List Char) (v : Json) (hv : wfJ v = true) : ∀ ms : JMembers,
    wfM ms = true → wfM (putKey k v ms) = true
  | .nil, _ => by simp [putKey, wfM, hv]
  | .cons k2 v2 ms, hm => by
    rw [wfM, Bool.and_eq_true] at hm
    by_cases hk : k2 = k
    · rw [putKey, if_pos hk, wfM, Bool.and_eq_true]
      exact ⟨hv, hm.2⟩
    · rw [putKey, if_neg hk, wfM, Bool.and_eq_true]
      exact ⟨hm.1, wfM_putKey k v hv ms hm.2⟩

theorem dedupFrom_wf : ∀ (ms acc : JMembers), wfM acc = true → wfM ms = true →
    wfM (dedupFrom acc ms) = true
  | .nil, acc, ha, _ => ha
  | .cons k v ms, acc, ha, hm => by
    rw [wfM, Bool.and_eq_true] at hm
    rw [dedupFrom]
    exact dedupFrom_wf ms (putKey k v acc) (wfM_putKey k v hm.1 acc ha) hm.2

theorem dedup_wf (ms : JMembers) (hm : wfM ms = true) : wfM (dedupMembers ms) = true :=
  dedupFrom_wf ms .nil rfl hm
theorem chewWs_lit (c : Char) (t : List Char) (h : jsonWs c = false) :
    chewWs (c :: t) = c :: t := chewWs_not_ws c t h

theorem parseVal_quote (g : Nat) (r : List Char) :
    parseVal (g + 1) ('"' :: r) = (parseStrBody r).map (fun p => (Json.str p.1, p.2)) := by
  rw [parseVal_step, chewWs_not_ws _ _ (by decide)]
  simp

theorem parseVal_null (g : Nat) (r : List Char) :
    parseVal (g + 1) ('n' :: r) = (afterLit ['u', 'l', 'l'] r).map (fun t => (Json.null, t)) := by
  rw [parseVal_step, chewWs_not_ws _ _ (by decide)]
  simp

theorem parseVal_num_lit (g : Nat) (c : Char) (r : List Char) (h : isDig c = true) :
    parseVal (g + 1) (c :: r) = (parseIntTok (c :: r)).map (fun p => (Json.num p.1, p.2)) := by
  obtain ⟨hws, hn, ht, hf, hq, hbk, hbc, _, _, _, _⟩ := isDig_props c h
  rw [parseVal_step, chewWs_not_ws _ _ hws]
  simp only [if_neg hn, if_neg ht, if_neg hf, if_neg hq, if_neg hbk, if_neg hbc]
  rw [if_pos (by simp [h])]


theorem parseVal_true_lit (g : Nat) (r : List Char) :
    parseVal (g + 1) ('t' :: r) = (afterLit ['r', 'u', 'e'] r).map (fun t => (Json.bool true, t)) := by
  rw [parseVal_step, chewWs_not_ws _ _ (by decide)]
  simp

theorem parseVal_false_lit (g : Nat) (r : List Char) :
    parseVal (g + 1) ('f' :: r) = (afterLit ['a', 'l', 's', 'e'] r).map (fun t => (Json.bool false, t)) := by
  rw [parseVal_step, chewWs_not_ws _ _ (by decide)]
  simp

theorem parseVal_minus (g : Nat) (r : List Char) :
    parseVal (g + 1) ('-' :: r) = (parseIntTok ('-' :: r)).map (fun p => (Json.num p.1, p.2)) := by
  rw [parseVal_step, chewWs_not_ws _ _ (by decide)]
  simp

theorem parseVal_arrStep (g : Nat) (r : List Char) :
    parseVal (g + 1) ('[' :: r) =
      (match chewWs r with
       | [] => none
       | c2 :: r2 =>
         if c2 = ']' then some (Json.arr .nil, r2)
         else
           match parseVal g (c2 :: r2) with
           | none => none
           | some (v, r3) =>
             match parseArrTail g r3 with
             | none => none
             | some (vs, r4) => some (Json.arr (.cons v vs), r4)) := by
  rw [parseVal_step, chewWs_not_ws _ _ (by decide)]
  simp

theorem parseVal_objStep (g : Nat) (r : List Char) :
    parseVal (g + 1) ('\x7b' :: r) =
      (match chewWs r with
       | [] => none
       | c2 :: r2 =>
         if c2 = '\x7d' then some (Json.obj .nil, r2)
         else
           match parseMemsFrom g (c2 :: r2) with
           | none => none
           | some (ms, r3) => some (Json.obj (dedupMembers ms), r3)) := by
  rw [parseVal_step, chewWs_not_ws _ _ (by decide)]
  simp

theorem parseVal_space (g : Nat) (u : List Char) :
    parseVal (g + 1) (' ' :: u) = parseVal (g + 1) u := by
  rw [parseVal_step, parseVal_step, chewWs_space]

theorem jsize_pos : ∀ v : Json, 1 ≤ jsize v := by
  intro v
  cases v <;> simp only [jsize] <;> omega

theorem dumpObjTail_cons (k : List Char) (v : Json) (ms : JMembers) :
    dumpObjTail (.cons k v ms) = ',' :: ' ' :: dumpMems (.cons k v ms) := rfl

/-! ### C5: the round trip of the serializer through the parser -/

mutual

theorem rtVal : ∀ (v : Json), wfJ v = true → ∀ (f : Nat) (rest : List Char),
    jsize v ≤ f → noDigHead rest = true →
    parseVal f (dumps v ++ rest) = some (v, rest)
  | .null, hw, f, rest, hf, hr => by
    obtain ⟨g, rfl⟩ : ∃ g, f = g + 1 :=
      ⟨f - 1, by have := jsize_pos Json.null; omega⟩
    rw [show dumps Json.null ++ rest = 'n' :: ('u' :: 'l' :: 'l' :: rest) from rfl,
      parseVal_null]
    simp [afterLit]
  | .bool true, hw, f, rest, hf, hr => by
    obtain ⟨g, rfl⟩ : ∃ g, f = g + 1 :=
      ⟨f - 1, by have := jsize_pos (Json.bool true); omega⟩
    rw [show dumps (Json.bool true) ++ rest = 't' :: ('r' :: 'u' :: 'e' :: rest) from rfl,
      parseVal_true_lit]
    simp [afterLit]
  | .bool false, hw, f, rest, hf, hr => by
    obtain ⟨g, rfl⟩ : ∃ g, f = g + 1 :=
      ⟨f - 1, by have := jsize_pos (Json.bool false); omega⟩
    rw [show dumps (Json.bool false) ++ rest = 'f' :: ('a' :: 'l' :: 's' :: 'e' :: rest) from rfl,
      parseVal_false_lit]
    simp [afterLit]
  | .str s, hw, f, rest, hf, hr => by
    obtain ⟨g, rfl⟩ : ∃ g, f = g + 1 :=
      ⟨f - 1, by have := jsize_pos (Json.str s); omega⟩
    rw [show dumps (Json.str s) ++ rest = dumpStr s ++ rest from rfl,
      dumpStr_eq, parseVal_quote, parseStrBody_flat]
    rfl
  | .num i, hw, f, rest, hf, hr => by
    obtain ⟨g, rfl⟩ : ∃ g, f = g + 1 :=
      ⟨f - 1, by have := jsize_pos (Json.num i); omega⟩
    rw [show dumps (Json.num i) ++ rest = intChars i ++ rest from rfl]
    by_cases hneg : i < 0
    · rw [show intChars i ++ rest = '-' :: (natChars i.natAbs ++ rest) from by
        rw [intChars, if_pos hneg, List.cons_append]]
      rw [parseVal_minus]
      rw [show ('-' :: (natChars i.natAbs ++ rest)) = intChars i ++ rest from by
        rw [intChars, if_pos hneg, List.cons_append]]
      rw [parseIntTok_intChars i rest hr]
      rfl
    · obtain ⟨c, t, hrep, hdig, hne0⟩ := natChars_shape i.natAbs
      rw [show intChars i ++ rest = c :: (t ++ rest) from by
        rw [intChars, if_neg hneg, hrep, List.cons_append]]
      rw [parseVal_num_lit g c (t ++ rest) hdig]
      rw [show (c :: (t ++ rest)) = intChars i ++ rest from by
        rw [intChars, if_neg hneg, hrep, List.cons_append]]
      rw [parseIntTok_intChars i rest hr]
      rfl
  | .arr .nil, hw, f, rest, hf, hr => by
    obtain ⟨g, rfl⟩ : ∃ g, f = g + 1 :=
      ⟨f - 1, by have := jsize_pos (Json.arr .nil); omega⟩
    rw [show dumps (Json.arr .nil) ++ rest = '[' :: (']' :: rest) from rfl,
      parseVal_arrStep, chewWs_not_ws _ _ (by decide)]
    simp
  | .arr (.cons v vs), hw, f, rest, hf, hr => by
    simp only [jsize, lsize] at hf
    obtain ⟨g, rfl⟩ : ∃ g, f = g + 1 := ⟨f - 1, by omega⟩
    simp only [wfJ, wfL, Bool.and_eq_true] at hw
    obtain ⟨hwv, hwvs⟩ := hw
    rw [show dumps (Json.arr (.cons v vs)) ++ rest
        = '[' :: (dumps v ++ (dumpArrTail vs ++ rest)) from by
      simp [dumps, List.append_assoc]]
    rw [parseVal_arrStep, chewWs_dumps v (dumpArrTail vs ++ rest)]
    obtain ⟨c, t, hrep, hws, hbr, hbc, hcm⟩ := dumps_shape v
    rw [hrep, List.cons_append]
    simp only []
    rw [if_neg hbr, ← List.cons_append, ← hrep]
    rw [rtVal v hwv g (dumpArrTail vs ++ rest) (by omega) (noDigHead_arrTail vs rest)]
    simp only []
    rw [rtArrTail vs hwvs g rest (by omega)]
  | .obj .nil, hw, f, rest, hf, hr => by
    obtain ⟨g, rfl⟩ : ∃ g, f = g + 1 :=
      ⟨f - 1, by have := jsize_pos (Json.obj .nil); omega⟩
    rw [show dumps (Json.obj .nil) ++ rest = '\x7b' :: ('\x7d' :: rest) from rfl,
      parseVal_objStep, chewWs_not_ws _ _ (by decide)]
    simp
  | .obj (.cons k v ms), hw, f, rest, hf, hr => by
    simp only [jsize, msize] at hf
    have hjv := jsize_pos v
    obtain ⟨g, rfl⟩ : ∃ g, f = g + 1 := ⟨f - 1, by omega⟩
    simp only [wfJ, Bool.and_eq_true] at hw
    obtain ⟨hwu, hwm⟩ := hw
    simp only [wfM, Bool.and_eq_true] at hwm
    rw [show dumps (Json.obj (.cons k v ms)) ++ rest
        = '\x7b' :: (dumpMems (.cons k v ms) ++ rest) from by simp [dumps]]
    rw [parseVal_objStep]
    rw [show dumpMems (.cons k v ms) ++ rest
        = '"' :: (k.flatMap escChar ++ ('"' :: (':' :: ' ' :: (dumps v ++ (dumpObjTail ms ++ rest))))) from by
      simp [dumpMems, dumpStr, List.append_assoc]]
    rw [chewWs_not_ws _ _ (by decide)]
    simp only []
    rw [if_neg (by decide : ¬('"' = '\x7d'))]
    rw [show ('"' :: (k.flatMap escChar ++ ('"' :: (':' :: ' ' :: (dumps v ++ (dumpObjTail ms ++ rest))))))
        = dumpMems (.cons k v ms) ++ rest from by
      simp [dumpMems, dumpStr, List.append_assoc]]
    rw [rtMems k v ms hwm.1 hwm.2 g rest (by simp only [msize]; omega)]
    simp only []
    rw [dedup_id (.cons k v ms) hwu]

theorem rtArrTail : ∀ (vs : JList), wfL vs = true → ∀ (f : Nat) (rest : List Char),
    lsize vs + 1 ≤ f →
    parseArrTail f (dumpArrTail vs ++ rest) = some (vs, rest)
  | .nil, hw, f, rest, hf => by
    obtain ⟨g, rfl⟩ : ∃ g, f = g + 1 := ⟨f - 1, by omega⟩
    rw [show dumpArrTail JList.nil ++ rest = ']' :: rest from rfl,
      parseArrTail_step, chewWs_not_ws _ _ (by decide)]
    rfl
  | .cons v vs, hw, f, rest, hf => by
    simp only [lsize] at hf
    have hjv := jsize_pos v
    obtain ⟨g2, rfl⟩ : ∃ g2, f = g2 + 2 := ⟨f - 2, by omega⟩
    simp only [wfL, Bool.and_eq_true] at hw
    obtain ⟨hwv, hwvs⟩ := hw
    rw [show dumpArrTail (JList.cons v vs) ++ rest
        = ',' :: (' ' :: (dumps v ++ (dumpArrTail vs ++ rest))) from by
      simp [dumpArrTail, List.append_assoc]]
    rw [show (g2 + 2) = (g2 + 1) + 1 from rfl, parseArrTail_step,
      chewWs_not_ws _ _ (by decide)]
    simp only []
    rw [parseVal_space]
    rw [rtVal v hwv (g2 + 1) (dumpArrTail vs ++ rest) (by omega) (noDigHead_arrTail vs rest)]
    simp only []
    rw [rtArrTail vs hwvs (g2 + 1) rest (by omega)]

theorem rtMems : ∀ (k : List Char) (v : Json) (ms : JMembers),
    wfJ v = true → wfM ms = true → ∀ (f : Nat) (rest : List Char),
    msize (JMembers.cons k v ms) ≤ f →
    parseMemsFrom f (dumpMems (.cons k v ms) ++ rest) = some (.cons k v ms, rest)
  | k, v, ms, hwv, hwm, f, rest, hf => by
    simp only [msize] at hf
    have hjv := jsize_pos v
    obtain ⟨g2, rfl⟩ : ∃ g2, f = g2 + 2 := ⟨f - 2, by omega⟩
    rw [show dumpMems (.cons k v ms) ++ rest
        = '"' :: (k.flatMap escChar ++ ('"' :: (':' :: (' ' :: (dumps v ++ (dumpObjTail ms ++ rest)))))) from by
      simp [dumpMems, dumpStr, List.append_assoc]]
    rw [show (g2 + 2) = (g2 + 1) + 1 from rfl, parseMemsFrom_step]
    simp only []
    rw [parseStrBody_flat]
    simp only []
    rw [chewWs_not_ws _ _ (by decide)]
    simp only []
    rw [parseVal_space]
    rw [rtVal v hwv (g2 + 1) (dumpObjTail ms ++ rest) (by omega) (noDigHead_objTail ms rest)]
    simp only []
    match ms, hwm with
    | .nil, _ =>
      rw [show dumpObjTail JMembers.nil ++ rest = '\x7d' :: rest from rfl,
        chewWs_not_ws _ _ (by decide)]
      rfl
    | .cons k2 v2 ms2, hwm =>
      rw [dumpObjTail_cons, List.cons_append, List.cons_append,
        chewWs_not_ws _ _ (by decide)]
      simp only []
      rw [show chewWs (' ' :: (dumpMems (.cons k2 v2 ms2) ++ rest))
          = dumpMems (.cons k2 v2 ms2) ++ rest from by
        rw [chewWs_space]
        rw [show dumpMems (.cons k2 v2 ms2) ++ rest
            = '"' :: (k2.flatMap escChar ++ ('"' :: (':' :: (' ' :: (dumps v2 ++ (dumpObjTail ms2 ++ rest)))))) from by
          simp [dumpMems, dumpStr, List.append_assoc]]
        rw [chewWs_not_ws _ _ (by decide)]]
      have hwm2 : wfJ v2 = true ∧ wfM ms2 = true := by
        simpa only [wfM, Bool.and_eq_true] using hwm
      rw [rtMems k2 v2 ms2 hwm2.1 hwm2.2 (g2 + 1) rest (by simp only [msize] at hf ⊢; omega)]

end

/-! ### C5: fuel adequacy of `loads` on serialized output -/

theorem dumpStr_len (s : List Char) : 2 ≤ (dumpStr s).length := by
  simp [dumpStr]

theorem intChars_len (i : Int) : 1 ≤ (intChars i).length := by
  obtain ⟨c, t, hrep, _, _⟩ := natChars_shape i.natAbs
  rw [intChars]
  by_cases hneg : i < 0
  · rw [if_pos hneg]
    simp
  · rw [if_neg hneg, hrep]
    simp

mutual

theorem jsize_le_dumps : ∀ v : Json, jsize v + 1 ≤ 2 * (dumps v).length
  | .null => by simp [dumps, jsize]
  | .bool true => by simp [dumps, jsize]
  | .bool false => by simp [dumps, jsize]
  | .num i => by
    have := intChars_len i
    simp only [dumps, jsize]
    omega
  | .str s => by
    have := dumpStr_len s
    simp only [dumps, jsize]
    omega
  | .arr .nil => by simp [dumps, jsize, lsize]
  | .arr (.cons v vs) => by
    have h1 := jsize_le_dumps v
    have h2 := lsize_le_dumpTail vs
    simp only [dumps, jsize, lsize, List.length_cons, List.length_append]
    omega
  | .obj .nil => by simp [dumps, jsize, msize, dumpMems]
  | .obj (.cons k v ms) => by
    have h1 := jsize_le_dumps v
    have h2 := msize_le_objTail ms
    have h3 := dumpStr_len k
    simp only [dumps, jsize, msize, dumpMems, List.length_cons, List.length_append]
    omega

theorem lsize_le_dumpTail : ∀ vs : JList, lsize vs + 1 ≤ 2 * (dumpArrTail vs).length
  | .nil => by simp [lsize, dumpArrTail]
  | .cons v vs => by
    have h1 := jsize_le_dumps v
    have h2 := lsize_le_dumpTail vs
    simp only [dumpArrTail, lsize, List.length_cons, List.length_append]
    omega

theorem msize_le_objTail : ∀ ms : JMembers, msize ms + 2 ≤ 2 * (dumpObjTail ms).length
  | .nil => by simp [msize, dumpObjTail]
  | .cons k v ms => by
    have h1 := jsize_le_dumps v
    have h2 := msize_le_objTail ms
    have h3 := dumpStr_len k
    simp only [dumpObjTail, msize, List.length_cons, List.length_append]
    omega

end

/-- Serializing a well-formed value and loading it back restores the value. -/
theorem loads_dumps (v : Json) (hw : wfJ v = true) : loads (dumps v) = some v := by
  rw [loads]
  have hsz := jsize_le_dumps v
  have h := rtVal v hw (2 * (dumps v).length + 2) [] (by omega) rfl
  rw [List.append_nil] at h
  rw [h]
  rfl

/-! ### C5: everything `loads` builds is well-formed -/

theorem parseWf : ∀ fuel : Nat,
    (∀ s v r, parseVal fuel s = some (v, r) → wfJ v = true)
    ∧ (∀ s vs r, parseArrTail fuel s = some (vs, r) → wfL vs = true)
    ∧ (∀ s ms r, parseMemsFrom fuel s = some (ms, r) → wfM ms = true) := by
  intro fuel
  induction fuel with
  | zero =>
    refine ⟨?_, ?_, ?_⟩ <;> (intro s x r h; exact Option.noConfusion h)
  | succ g ih =>
    obtain ⟨ihv, iha, ihm⟩ := ih
    refine ⟨?_, ?_, ?_⟩
    · intro s v r h
      rw [parseVal_step] at h
      repeat' split at h
      all_goals first
      | exact Option.noConfusion h
      | (obtain ⟨a, ha, hfa⟩ := Option.map_eq_some'.mp h
         cases hfa
         simp [wfJ]
         done)
      | (cases h
         simp [wfJ, wfL, wfM, uniqKeys]
         done)
      | (cases h
         simp only [wfJ, wfL, Bool.and_eq_true]
         constructor
         · apply ihv
           assumption
         · apply iha
           assumption)
      | (cases h
         simp only [wfJ, Bool.and_eq_true]
         refine ⟨dedup_uniq _, dedup_wf _ ?_⟩
         apply ihm
         assumption)
    · intro s vs r h
      rw [parseArrTail_step] at h
      repeat' split at h
      all_goals first
      | exact Option.noConfusion h
      | (cases h
         simp [wfL]
         done)
      | (cases h
         simp only [wfL, Bool.and_eq_true]
         constructor
         · apply ihv
           assumption
         · apply iha
           assumption)
    · intro s ms r h
      rw [parseMemsFrom_step] at h
      repeat' split at h
      all_goals first
      | exact Option.noConfusion h
      | (cases h
         simp only [wfM, Bool.and_eq_true]
         refine ⟨?_, by simp [wfM]⟩
         apply ihv
         assumption)
      | (cases h
         simp only [wfM, Bool.and_eq_true]
         constructor
         · apply ihv
           assumption
         · apply ihm
           assumption)

/-- Everything `loads` returns is well-formed. -/
theorem loads_wf (s : List Char) (v : Json) (h : loads s = some v) : wfJ v = true := by
  rw [loads] at h
  rcases hp : parseVal (2 * s.length + 2) s with _ | ⟨w, r⟩
  · rw [hp] at h
    exact Option.noConfusion h
  · rw [hp] at h
    simp only [] at h
    by_cases hr : (chewWs r).isEmpty
    · rw [if_pos hr] at h
      cases h
      exact (parseWf (2 * s.length + 2)).1 s _ r hp
    · rw [if_neg hr] at h
      exact Option.noConfusion h

/-- C5: when a raw text interprets successfully under `StructuredJSON` as a
valid StructuredQuestion value, re-serializing that value and parsing the
serialization back yields a value agreeing with the original on
`total_marks`, `topic`, `difficulty`, and the ordered `parts` list (hence
on every part's label, marks, question and solution text). -/
theorem c5_roundtrip (raw : List Char) (v : Json)
    (hok : interpretStructured raw = Except.ok v)
    (hsq : isStructuredQuestion v = true) :
    ∃ v2, loads (dumps v) = some v2
      ∧ getField v2 "total_marks" = getField v "total_marks"
      ∧ getField v2 "topic" = getField v "topic"
      ∧ getField v2 "difficulty" = getField v "difficulty"
      ∧ getField v2 "parts" = getField v "parts" := by
  have hload : loads raw = some v := by
    rw [interpretStructured] at hok
    rcases hl : loads raw with _ | w
    · rw [hl] at hok
      exact Except.noConfusion hok
    · rw [hl] at hok
      cases hok
      rfl
  have hwf := loads_wf raw v hload
  exact ⟨v, loads_dumps v hwf, rfl, rfl, rfl, rfl⟩

/-- C5 (witness): the spec's example shape, at concrete input. -/
theorem c5_roundtrip_witness :
    ∃ v2,
      loads (dumps (Json.obj (JMembers.cons "total_marks".data (Json.num 5)
        (JMembers.cons "topic".data (Json.str "T".data)
          (JMembers.cons "difficulty".data (Json.str "D".data)
            (JMembers.cons "parts".data (Json.arr (JList.cons
              (Json.obj (JMembers.cons "label".data (Json.str "a".data)
                (JMembers.cons "marks".data (Json.num 5)
                  (JMembers.cons "question".data (Json.str "q".data)
                    (JMembers.cons "solution".data (Json.str "s".data)
                      JMembers.nil)))))
              JList.nil)) JMembers.nil)))))) = some v2
      ∧ getField v2 "total_marks" = getField (Json.obj (JMembers.cons "total_marks".data (Json.num 5)
        (JMembers.cons "topic".data (Json.str "T".data)
          (JMembers.cons "difficulty".data (Json.str "D".data)
            (JMembers.cons "parts".data (Json.arr (JList.cons
              (Json.obj (JMembers.cons "label".data (Json.str "a".data)
                (JMembers.cons "marks".data (Json.num 5)
                  (JMembers.cons "question".data (Json.str "q".data)
                    (JMembers.cons "solution".data (Json.str "s".data)
                      JMembers.nil)))))
              JList.nil)) JMembers.nil))))) "total_marks"
      ∧ getField v2 "topic" = getField (Json.obj (JMembers.cons "total_marks".data (Json.num 5)
        (JMembers.cons "topic".data (Json.str "T".data)
          (JMembers.cons "difficulty".data (Json.str "D".data)
            (JMembers.cons "parts".data (Json.arr (JList.cons
              (Json.obj (JMembers.cons "label".data (Json.str "a".data)
                (JMembers.cons "marks".data (Json.num 5)
                  (JMembers.cons "question".data (Json.str "q".data)
                    (JMembers.cons "solution".data (Json.str "s".data)
                      JMembers.nil)))))
              JList.nil)) JMembers.nil))))) "topic"
      ∧ getField v2 "difficulty" = getField (Json.obj (JMembers.cons "total_marks".data (Json.num 5)
        (JMembers.cons "topic".data (Json.str "T".data)
          (JMembers.cons "difficulty".data (Json.str "D".data)
            (JMembers.cons "parts".data (Json.arr (JList.cons
              (Json.obj (JMembers.cons "label".data (Json.str "a".data)
                (JMembers.cons "marks".data (Json.num 5)
                  (JMembers.cons "question".data (Json.str "q".data)
                    (JMembers.cons "solution".data (Json.str "s".data)
                      JMembers.nil)))))
              JList.nil)) JMembers.nil))))) "difficulty"
      ∧ getField v2 "parts" = getField (Json.obj (JMembers.cons "total_marks".data (Json.num 5)
        (JMembers.cons "topic".data (Json.str "T".data)
          (JMembers.cons "difficulty".data (Json.str "D".data)
            (JMembers.cons "parts".data (Json.arr (JList.cons
              (Json.obj (JMembers.cons "label".data (Json.str "a".data)
                (JMembers.cons "marks".data (Json.num 5)
                  (JMembers.cons "question".data (Json.str "q".data)
                    (JMembers.cons "solution".data (Json.str "s".data)
                      JMembers.nil)))))
              JList.nil)) JMembers.nil))))) "parts" :=
  c5_roundtrip
    "\x7b\"total_marks\": 5, \"topic\": \"T\", \"difficulty\": \"D\", \"parts\": [\x7b\"label\": \"a\", \"marks\": 5, \"question\": \"q\", \"solution\": \"s\"\x7d]\x7d".data
    _ (by rfl) (by rfl)

/-- C6: a parsed object carrying all the recognized fields plus additional
unrecognized top-level fields is returned whole by the `StructuredJSON`
interpretation — the extra fields are ignored, not rejected — and every
recognized field of the result is exactly the parsed field. -/
theorem c6_extra_fields_ignored (raw : List Char) (ms : JMembers)
    (hload : loads raw = some (Json.obj ms))
    (hrec : ∀ k ∈ recognizedKeys, (getField (Json.obj ms) k).isSome = true)
    (hextra : ∃ k, hasKey k ms = true ∧ ∀ k2 ∈ recognizedKeys, k ≠ k2.data) :
    ∃ out, interpretStructured raw = Except.ok out
      ∧ ∀ k ∈ recognizedKeys, getField out k = getField (Json.obj ms) k := by
  refine ⟨Json.obj ms, ?_, fun k _ => rfl⟩
  rw [interpretStructured, hload]

/-- C6 (witness): an object with all four recognized fields and an extra
`extra` field parses, is returned whole, and keeps the recognized fields. -/
theorem c6_extra_fields_ignored_witness :
    ∃ out,
      interpretStructured "\x7b\"total_marks\": 25, \"topic\": \"T\", \"difficulty\": \"D\", \"parts\": [], \"extra\": true\x7d".data
        = Except.ok out
      ∧ ∀ k ∈ recognizedKeys,
        getField out k = getField (Json.obj (JMembers.cons "total_marks".data (Json.num 25)
          (JMembers.cons "topic".data (Json.str "T".data)
            (JMembers.cons "difficulty".data (Json.str "D".data)
              (JMembers.cons "parts".data (Json.arr JList.nil)
                (JMembers.cons "extra".data (Json.bool true) JMembers.nil)))))) k :=
  c6_extra_fields_ignored
    "\x7b\"total_marks\": 25, \"topic\": \"T\", \"difficulty\": \"D\", \"parts\": [], \"extra\": true\x7d".data
    (JMembers.cons "total_marks".data (Json.num 25)
      (JMembers.cons "topic".data (Json.str "T".data)
        (JMembers.cons "difficulty".data (Json.str "D".data)
          (JMembers.cons "parts".data (Json.arr JList.nil)
            (JMembers.cons "extra".data (Json.bool true) JMembers.nil)))))
    (by rfl)
    (by decide)
    ⟨"extra".data, by decide, by decide⟩

end ExamPapers
